import Mathlib

/-!
Shallow embedding of the floodsub network behaviour from
`src/protocols/floodsub/src/layer.rs` (struct `FloodsubBehaviour` and its
methods), together with proofs of the specification claims about it.

Modelling conventions:
* `PeerId` and `TopicHash` are opaque identifiers; both are modelled as `Nat`.
* `Topic` exposes its `TopicHash` through the field `hash` (mirroring
  `Topic::hash()`); all comparisons in the source go through the hash.
* Byte vectors (`Vec<u8>`) are `List Nat`.
* The `VecDeque` of pending events is a `List` with `push_back` as append.
* The `HashMap<PeerId, SmallVec<TopicHash>>` of connected peers is an
  association list `List (PeerId × List TopicHash)`; `insert`, `remove` and
  iteration are modelled below.  Reachable states keep the keys `Nodup`.
* The `CuckooFilter` is modelled as an exact set of messages (a list used
  only through membership): `add` appends, `test_and_add` is a membership
  test followed by an insert when absent.  The approximate nature of the
  real filter (false positives, capacity eviction) is abstracted away.
-/

abbrev PeerId := Nat

abbrev TopicHash := Nat

structure Topic where
  hash : TopicHash
deriving DecidableEq

structure FloodsubMessage where
  source : PeerId
  data : List Nat
  sequence_number : List Nat
  topics : List TopicHash
deriving DecidableEq

inductive FloodsubSubscriptionAction where
  | Subscribe
  | Unsubscribe
deriving DecidableEq

structure FloodsubSubscription where
  topic : TopicHash
  action : FloodsubSubscriptionAction
deriving DecidableEq

structure FloodsubRpc where
  messages : List FloodsubMessage
  subscriptions : List FloodsubSubscription
deriving DecidableEq

inductive NetworkBehaviorAction where
  | SendEvent (peer_id : PeerId) (event : FloodsubRpc)
  | GenerateEvent (message : FloodsubMessage)
deriving DecidableEq

structure FloodsubBehaviour where
  events : List NetworkBehaviorAction
  local_peer_id : PeerId
  connected_peers : List (PeerId × List TopicHash)
  subscribed_topics : List Topic
  seq_no : Nat
  received : List FloodsubMessage
deriving DecidableEq

/-- The `HashMap::insert` of the peer registry: replace the value under an
existing key, otherwise add a fresh binding. -/
def hashmapInsert (m : List (PeerId × List TopicHash)) (k : PeerId)
    (v : List TopicHash) : List (PeerId × List TopicHash) :=
  if m.any fun kv => kv.1 == k then
    m.map fun kv => if kv.1 == k then (k, v) else kv
  else
    m ++ [(k, v)]

/-- The `HashMap::get` of the peer registry. -/
def hashmapLookup (m : List (PeerId × List TopicHash)) (k : PeerId) :
    Option (List TopicHash) :=
  (m.find? fun kv => kv.1 == k).map Prod.snd

/-- `FloodsubBehaviour::new`. -/
def FloodsubBehaviour.new (local_peer_id : PeerId) : FloodsubBehaviour :=
  { events := []
    local_peer_id := local_peer_id
    connected_peers := []
    subscribed_topics := []
    seq_no := 0
    received := [] }

/-- `FloodsubBehaviour::subscribe`: returns the `bool` result paired with the
updated behaviour. -/
def FloodsubBehaviour.subscribe (b : FloodsubBehaviour) (topic : Topic) :
    Bool × FloodsubBehaviour :=
  if b.subscribed_topics.any fun t => t.hash == topic.hash then
    (false, b)
  else
    (true,
      { b with
        events := b.events ++ (b.connected_peers.map fun pr =>
          NetworkBehaviorAction.SendEvent pr.1
            { messages := []
              subscriptions := [{ topic := topic.hash
                                  action := FloodsubSubscriptionAction.Subscribe }] })
        subscribed_topics := b.subscribed_topics ++ [topic] })

/-- `FloodsubBehaviour::unsubscribe` (takes the topic hash). -/
def FloodsubBehaviour.unsubscribe (b : FloodsubBehaviour) (topic : TopicHash) :
    Bool × FloodsubBehaviour :=
  if b.subscribed_topics.any fun t => t.hash == topic then
    (true,
      { b with
        events := b.events ++ (b.connected_peers.map fun pr =>
          NetworkBehaviorAction.SendEvent pr.1
            { messages := []
              subscriptions := [{ topic := topic
                                  action := FloodsubSubscriptionAction.Unsubscribe }] })
        subscribed_topics :=
          b.subscribed_topics.eraseP fun t => t.hash == topic })
  else
    (false, b)

/-- The decimal ASCII bytes of a natural number: the model of
`usize::to_string(..).into::<Vec<u8>>()` used by `next_sequence_number`. -/
def natToDecimalAscii (n : Nat) : List Nat :=
  if n = 0 then [48] else (Nat.digits 10 n).reverse.map fun d => d + 48

/-- Left inverse of `natToDecimalAscii`, used to prove it injective. -/
def decodeDecimalAscii (l : List Nat) : Nat :=
  Nat.ofDigits 10 (l.map fun c => c - 48).reverse

/-- The message constructed at the top of `publish_many`: the sequence number
is minted from the current value of the counter (`next_sequence_number`
returns the old value of `seq_no`). -/
def mkMessage (b : FloodsubBehaviour) (topics : List TopicHash)
    (data : List Nat) : FloodsubMessage :=
  { source := b.local_peer_id
    data := data
    sequence_number := natToDecimalAscii b.seq_no
    topics := topics }

/-- `FloodsubBehaviour::publish_many` (and through it `publish`): build the
message, bump the sequence counter, gate on the local subscriptions, mark the
message seen, and enqueue one envelope per overlapping connected peer. -/
def FloodsubBehaviour.publish_many (b : FloodsubBehaviour)
    (topics : List TopicHash) (data : List Nat) : FloodsubBehaviour :=
  let message := mkMessage b topics data
  let b1 : FloodsubBehaviour := { b with seq_no := b.seq_no + 1 }
  if !(b1.subscribed_topics.any fun t => message.topics.any fun u => t.hash == u) then
    b1
  else
    let b2 : FloodsubBehaviour := { b1 with received := b1.received ++ [message] }
    { b2 with
      events := b2.events ++
        ((b2.connected_peers.filter fun pr =>
            pr.2.any fun t => message.topics.any fun u => t == u).map fun pr =>
          NetworkBehaviorAction.SendEvent pr.1
            { messages := [message], subscriptions := [] }) }

/-- `NetworkBehavior::inject_connected`: announce every local subscription to
the new peer, then register it with an empty topic set. -/
def FloodsubBehaviour.inject_connected (b : FloodsubBehaviour) (id : PeerId) :
    FloodsubBehaviour :=
  { b with
    events := b.events ++ (b.subscribed_topics.map fun topic =>
      NetworkBehaviorAction.SendEvent id
        { messages := []
          subscriptions := [{ topic := topic.hash
                              action := FloodsubSubscriptionAction.Subscribe }] })
    connected_peers := hashmapInsert b.connected_peers id [] }

/-- `NetworkBehavior::inject_disconnected`: drop the peer's registry entry
(the `debug_assert!` on the previous presence of the entry is not modelled). -/
def FloodsubBehaviour.inject_disconnected (b : FloodsubBehaviour) (id : PeerId) :
    FloodsubBehaviour :=
  { b with connected_peers := b.connected_peers.filter fun kv => !(kv.1 == id) }

/-- Accumulation into `rpcs_to_dispatch`: if the peer already has a pending
rpc (first matching position), push the message onto it, otherwise append a
fresh rpc holding just this message. -/
def pushToPeer : List (PeerId × FloodsubRpc) → PeerId → FloodsubMessage →
    List (PeerId × FloodsubRpc)
  | [], p, m => [(p, { messages := [m], subscriptions := [] })]
  | pr :: rest, p, m =>
    if pr.1 == p then
      (pr.1, { pr.2 with messages := pr.2.messages ++ [m] }) :: rest
    else
      pr :: pushToPeer rest p m

/-- One iteration of the relay loop of `inject_node_event` over a registry
entry: skip the propagation source and peers with no topic overlap, otherwise
accumulate the message for that peer. -/
def relayStep (src : PeerId) (message : FloodsubMessage)
    (rpcs : List (PeerId × FloodsubRpc)) (entry : PeerId × List TopicHash) :
    List (PeerId × FloodsubRpc) :=
  if entry.1 == src then rpcs
  else if entry.2.any fun t => message.topics.any fun u => t == u then
    pushToPeer rpcs entry.1 message
  else rpcs

/-- The body of the message loop of `inject_node_event`: deduplicate via
`test_and_add`, deliver to the application when a local subscription matches,
and accumulate relay targets. -/
def processMessage (src : PeerId)
    (st : FloodsubBehaviour × List (PeerId × FloodsubRpc))
    (message : FloodsubMessage) :
    FloodsubBehaviour × List (PeerId × FloodsubRpc) :=
  if message ∈ st.1.received then st
  else
    let b1 : FloodsubBehaviour := { st.1 with received := st.1.received ++ [message] }
    let b2 : FloodsubBehaviour :=
      if b1.subscribed_topics.any fun t => message.topics.any fun u => t.hash == u then
        { b1 with events := b1.events ++ [NetworkBehaviorAction.GenerateEvent message] }
      else b1
    (b2, b2.connected_peers.foldl (relayStep src message) st.2)

/-- `NetworkBehavior::inject_node_event`: process every message of the
envelope in order, then flush the accumulated per-peer rpcs as send events.
The `subscriptions` field of the envelope is not consulted anywhere. -/
def FloodsubBehaviour.inject_node_event (b : FloodsubBehaviour)
    (propagation_source : PeerId) (event : FloodsubRpc) : FloodsubBehaviour :=
  let st := event.messages.foldl (processMessage propagation_source) (b, [])
  { st.1 with
    events := st.1.events ++ st.2.map fun pr =>
      NetworkBehaviorAction.SendEvent pr.1 pr.2 }

/-- A sequence of `publish_many` calls, each given as a pair of a topic list
and a data payload. -/
def publishCalls (b : FloodsubBehaviour)
    (calls : List (List TopicHash × List Nat)) : FloodsubBehaviour :=
  calls.foldl (fun b c => b.publish_many c.1 c.2) b

/-- Number of `GenerateEvent` (deliver-to-application) actions for a given
message in a list of actions. -/
def deliverCount (m : FloodsubMessage) (evts : List NetworkBehaviorAction) : Nat :=
  evts.countP fun a =>
    match a with
    | NetworkBehaviorAction.GenerateEvent m2 => decide (m2 = m)
    | NetworkBehaviorAction.SendEvent _ _ => false

/-- Whether an action is a send event containing a given message, addressed
to a given peer. -/
def isRelayOf (m : FloodsubMessage) (q : PeerId) : NetworkBehaviorAction → Bool :=
  fun a =>
    match a with
    | NetworkBehaviorAction.SendEvent p rpc => decide (p = q) && decide (m ∈ rpc.messages)
    | NetworkBehaviorAction.GenerateEvent _ => false

/-- Number of relay envelopes containing a given message that are addressed
to a given peer. -/
def relayEnvCount (m : FloodsubMessage) (q : PeerId)
    (evts : List NetworkBehaviorAction) : Nat :=
  evts.countP (isRelayOf m q)

/-- Whether an action is a send event addressed to a given peer. -/
def sendsTo (q : PeerId) : NetworkBehaviorAction → Bool :=
  fun a =>
    match a with
    | NetworkBehaviorAction.SendEvent p _ => decide (p = q)
    | NetworkBehaviorAction.GenerateEvent _ => false

/-- The actions a state transition appended to the event queue. -/
def newEvents (pre post : FloodsubBehaviour) : List NetworkBehaviorAction :=
  post.events.drop pre.events.length

/-! ### Concrete states used by witnesses and counterexamples -/

/-- Concrete state for the C5 witness: subscribed to topic 3 only. -/
def bC5 : FloodsubBehaviour :=
  { events := []
    local_peer_id := 0
    connected_peers := [(1, [4])]
    subscribed_topics := [{ hash := 3 }]
    seq_no := 0
    received := [] }

/-- Concrete state for the C6 witness: subscribed to topic 9, two connected
peers. -/
def bC6 : FloodsubBehaviour :=
  { events := []
    local_peer_id := 0
    connected_peers := [(1, []), (2, [7])]
    subscribed_topics := [{ hash := 9 }]
    seq_no := 0
    received := [] }

/-- Concrete state for the C3 witness: the fan-out example of the spec with
peers A=1 on topic 10, B=2 on topic 20, C=3 on topics 10 and 20; the local
node is subscribed to topic 10. -/
def bC3 : FloodsubBehaviour :=
  { events := []
    local_peer_id := 0
    connected_peers := [(1, [10]), (2, [20]), (3, [10, 20])]
    subscribed_topics := [{ hash := 10 }]
    seq_no := 0
    received := [] }

/-- Concrete state for the C1 counterexample: peer 1 is registered with an
empty topic set. -/
def bC1 : FloodsubBehaviour :=
  { events := []
    local_peer_id := 0
    connected_peers := [(1, [])]
    subscribed_topics := []
    seq_no := 0
    received := [] }

/-- Concrete state for C8: subscribed to topic 3, one connected peer on
topic 3. -/
def bC8 : FloodsubBehaviour :=
  { events := []
    local_peer_id := 0
    connected_peers := [(1, [3])]
    subscribed_topics := [{ hash := 3 }]
    seq_no := 0
    received := [] }

/-- A concrete inbound message with an empty topic list. -/
def mW8 : FloodsubMessage :=
  { source := 9
    data := [1]
    sequence_number := [48]
    topics := [] }

/-! ### Basic lemmas about the sequence-number encoding -/

lemma decodeDecimalAscii_natToDecimalAscii (n : Nat) :
    decodeDecimalAscii (natToDecimalAscii n) = n := by
  unfold natToDecimalAscii decodeDecimalAscii
  by_cases h : n = 0
  · subst h
    simp [Nat.ofDigits]
  · simp only [h, if_false, List.map_map]
    have hcomp : ((fun c => c - 48) ∘ fun d => d + 48) = (id : Nat → Nat) := by
      funext d
      simp
    rw [hcomp, List.map_id, List.reverse_reverse, Nat.ofDigits_digits]

lemma natToDecimalAscii_injective : Function.Injective natToDecimalAscii :=
  Function.LeftInverse.injective decodeDecimalAscii_natToDecimalAscii

/-! ### Lemmas about `publish_many` -/

lemma publish_many_seq_no (b : FloodsubBehaviour) (ts : List TopicHash)
    (d : List Nat) : (b.publish_many ts d).seq_no = b.seq_no + 1 := by
  unfold FloodsubBehaviour.publish_many
  dsimp only
  split <;> rfl

lemma publish_many_gated (b : FloodsubBehaviour) (ts : List TopicHash)
    (d : List Nat)
    (h : (b.subscribed_topics.any fun t => ts.any fun u => t.hash == u) = false) :
    b.publish_many ts d = { b with seq_no := b.seq_no + 1 } := by
  unfold FloodsubBehaviour.publish_many mkMessage
  simp [h]

lemma publishCalls_seq_no (calls : List (List TopicHash × List Nat)) :
    ∀ b : FloodsubBehaviour,
      (publishCalls b calls).seq_no = b.seq_no + calls.length := by
  induction calls with
  | nil => intro b; simp [publishCalls]
  | cons c rest ih =>
    intro b
    unfold publishCalls
    simp only [List.foldl_cons]
    have := ih (b.publish_many c.1 c.2)
    unfold publishCalls at this
    rw [this, publish_many_seq_no]
    simp only [List.length_cons]
    omega

/-- C5: a publish whose topics are disjoint from the local subscription set
appends nothing to the event outbox and does not mark the message seen. -/
theorem C5_gated_publish_no_effect (b : FloodsubBehaviour)
    (ts : List TopicHash) (d : List Nat)
    (hgate : (b.subscribed_topics.any fun t => ts.any fun u => t.hash == u) = false) :
    (b.publish_many ts d).events = b.events ∧
    (b.publish_many ts d).received = b.received := by
  rw [publish_many_gated b ts d hgate]
  exact ⟨rfl, rfl⟩

/-- Witness for C5 at a concrete gated publish (topic 4 is not subscribed). -/
theorem C5_gated_publish_no_effect_witness :
    (bC5.publish_many [4] [9]).events = bC5.events ∧
    (bC5.publish_many [4] [9]).received = bC5.received :=
  C5_gated_publish_no_effect bC5 [4] [9] (by decide)

/-- C10: every publish call advances the sequence counter by exactly one, and
a gated-out publish changes nothing else: the resulting state is the old one
with only `seq_no` incremented. -/
theorem C10_publish_seq_frame (b : FloodsubBehaviour) :
    (∀ ts d, (b.publish_many ts d).seq_no = b.seq_no + 1) ∧
    (∀ ts d,
      (b.subscribed_topics.any fun t => ts.any fun u => t.hash == u) = false →
      b.publish_many ts d = { b with seq_no := b.seq_no + 1 }) :=
  ⟨fun ts d => publish_many_seq_no b ts d,
   fun ts d h => publish_many_gated b ts d h⟩

/-- Witness for C10 at a concrete state: a gated publish (topic 4 not
subscribed) bumps `seq_no` and leaves everything else unchanged, and an
ungated publish also bumps `seq_no` by one. -/
theorem C10_publish_seq_frame_witness :
    (bC5.publish_many [3] [1]).seq_no = bC5.seq_no + 1 ∧
    bC5.publish_many [4] [1] = { bC5 with seq_no := bC5.seq_no + 1 } :=
  ⟨(C10_publish_seq_frame bC5).1 [3] [1],
   (C10_publish_seq_frame bC5).2 [4] [1] (by decide)⟩

/-- C9: consecutive publishes mint pairwise distinct sequence numbers; the
counter advances by one per call and is never reset. -/
theorem C9_sequence_numbers_distinct (b : FloodsubBehaviour)
    (calls : List (List TopicHash × List Nat)) (i j : Nat)
    (hi : i < calls.length) (hj : j < calls.length) (hij : i ≠ j) :
    (publishCalls b calls).seq_no = b.seq_no + calls.length ∧
    (mkMessage (publishCalls b (calls.take i)) (calls.get ⟨i, hi⟩).1
        (calls.get ⟨i, hi⟩).2).sequence_number ≠
      (mkMessage (publishCalls b (calls.take j)) (calls.get ⟨j, hj⟩).1
        (calls.get ⟨j, hj⟩).2).sequence_number := by
  refine ⟨publishCalls_seq_no calls b, ?_⟩
  have hseq : ∀ k, k < calls.length →
      (publishCalls b (calls.take k)).seq_no = b.seq_no + k := by
    intro k hk
    rw [publishCalls_seq_no, List.length_take]
    omega
  simp only [mkMessage]
  rw [hseq i hi, hseq j hj]
  intro hcontra
  have := natToDecimalAscii_injective hcontra
  omega

/-- Witness for C9: two concrete consecutive publishes from a fresh behaviour
mint distinct sequence numbers. -/
theorem C9_sequence_numbers_distinct_witness :
    (publishCalls (FloodsubBehaviour.new 0) [([5], [1]), ([5], [2])]).seq_no =
      (FloodsubBehaviour.new 0).seq_no + ([([5], [1]), ([5], [2])] :
        List (List TopicHash × List Nat)).length ∧
    (mkMessage (publishCalls (FloodsubBehaviour.new 0)
          (([([5], [1]), ([5], [2])] : List (List TopicHash × List Nat)).take 0))
        [5] [1]).sequence_number ≠
      (mkMessage (publishCalls (FloodsubBehaviour.new 0)
          (([([5], [1]), ([5], [2])] : List (List TopicHash × List Nat)).take 1))
        [5] [2]).sequence_number :=
  C9_sequence_numbers_distinct (FloodsubBehaviour.new 0)
    [([5], [1]), ([5], [2])] 0 1 (by decide) (by decide) (by decide)

/-! ### Lemmas about the peer registry -/

lemma find?_map_insertKey (m : List (PeerId × List TopicHash)) (k : PeerId)
    (v : List TopicHash) :
    ((m.map fun kv => if kv.1 == k then (k, v) else kv).find? fun kv => kv.1 == k) =
      if m.any (fun kv => kv.1 == k) then some (k, v) else none := by
  induction m with
  | nil => simp
  | cons kv rest ih =>
    by_cases h : (kv.1 == k) = true
    · have h1 : (if (kv.1 == k) = true then (k, v) else kv) = (k, v) := if_pos h
      rw [List.map_cons, h1]
      simp [List.find?_cons, List.any_cons, h]
    · have h0 : (kv.1 == k) = false := by
        rwa [Bool.not_eq_true] at h
      have h1 : (if (kv.1 == k) = true then (k, v) else kv) = kv := if_neg h
      rw [List.map_cons, h1]
      simp only [List.find?_cons, h0, List.any_cons]
      simpa using ih

lemma hashmapLookup_insert (m : List (PeerId × List TopicHash)) (k : PeerId)
    (v : List TopicHash) :
    hashmapLookup (hashmapInsert m k v) k = some v := by
  unfold hashmapInsert hashmapLookup
  by_cases h : (m.any fun kv => kv.1 == k) = true
  · rw [if_pos h, find?_map_insertKey, if_pos h]
    rfl
  · have hfalse : (m.any fun kv => kv.1 == k) = false := by
      rwa [Bool.not_eq_true] at h
    rw [if_neg (by simp [hfalse]), List.find?_append]
    have hnone : (m.find? fun kv => kv.1 == k) = none := by
      rw [List.find?_eq_none]
      intro x hx hpx
      have : (m.any fun kv => kv.1 == k) = true := by
        rw [List.any_eq_true]
        exact ⟨x, hx, hpx⟩
      rw [hfalse] at this
      cases this
    rw [hnone]
    simp

/-- C7: connecting a peer registers it with an empty topic set and enqueues,
addressed to that peer only, one Subscribe announcement per locally-subscribed
topic; after a disconnect followed by a reconnect the entry is empty again. -/
theorem C7_connect_registers_empty_and_announces (b : FloodsubBehaviour)
    (p : PeerId) :
    hashmapLookup (b.inject_connected p).connected_peers p = some [] ∧
    newEvents b (b.inject_connected p) = (b.subscribed_topics.map fun topic =>
      NetworkBehaviorAction.SendEvent p
        { messages := []
          subscriptions := [{ topic := topic.hash
                              action := FloodsubSubscriptionAction.Subscribe }] }) ∧
    hashmapLookup ((b.inject_disconnected p).inject_connected p).connected_peers
      p = some [] := by
  refine ⟨?_, ?_, ?_⟩
  · exact hashmapLookup_insert b.connected_peers p []
  · unfold newEvents FloodsubBehaviour.inject_connected
    exact List.drop_left _ _
  · exact hashmapLookup_insert (b.inject_disconnected p).connected_peers p []

/-! ### Counting send events per destination key -/

lemma countP_keyEq_nodup {α : Type} (l : List (PeerId × α)) (q : PeerId)
    (h : (l.map Prod.fst).Nodup) :
    (l.countP fun pr => decide (pr.1 = q)) = if q ∈ l.map Prod.fst then 1 else 0 := by
  induction l with
  | nil => simp
  | cons pr rest ih =>
    simp only [List.map_cons, List.nodup_cons] at h
    obtain ⟨hnot, hrest⟩ := h
    by_cases hq : pr.1 = q
    · subst hq
      rw [List.countP_cons]
      have hzero : (rest.countP fun pr2 => decide (pr2.1 = pr.1)) = 0 := by
        rw [List.countP_eq_zero]
        intro a ha hpa
        exact hnot (by
          rw [List.mem_map]
          exact ⟨a, ha, by simpa using hpa⟩)
      simp [hzero]
    · rw [List.countP_cons, ih hrest, List.map_cons]
      by_cases hqin : q ∈ rest.map Prod.fst
      · rw [if_pos hqin, if_pos (List.mem_cons_of_mem _ hqin)]
        simp [hq]
      · have hq2 : q ∉ pr.1 :: rest.map Prod.fst := fun hcontra => by
          rcases List.mem_cons.mp hcontra with h1 | h1
          · exact hq h1.symm
          · exact hqin h1
        rw [if_neg hqin, if_neg hq2]
        simp [hq]

lemma countP_key_and_nodup {α : Type} (l : List (PeerId × α)) (q : PeerId)
    (s : α) (ov : PeerId × α → Bool) (hm : (q, s) ∈ l)
    (h : (l.map Prod.fst).Nodup) :
    (l.countP fun pr => decide (pr.1 = q) && ov pr) = if ov (q, s) then 1 else 0 := by
  induction l with
  | nil => cases hm
  | cons pr rest ih =>
    simp only [List.map_cons, List.nodup_cons] at h
    obtain ⟨hnot, hrest⟩ := h
    rcases List.mem_cons.mp hm with heq | htail
    · rw [List.countP_cons]
      have hzero : (rest.countP fun pr2 => decide (pr2.1 = q) && ov pr2) = 0 := by
        rw [List.countP_eq_zero]
        intro a ha hpa
        have haq : a.1 = q := by
          have := Bool.and_elim_left hpa
          simpa using this
        apply hnot
        rw [List.mem_map]
        refine ⟨a, ha, ?_⟩
        rw [haq, ← heq]
      rw [hzero, ← heq]
      simp
    · have hq : q ∈ rest.map Prod.fst := by
        rw [List.mem_map]
        exact ⟨(q, s), htail, rfl⟩
      have hne : pr.1 ≠ q := fun hcontra => hnot (hcontra ▸ hq)
      rw [List.countP_cons, ih htail hrest]
      simp [hne]

/-! ### Subscribe: C6 -/

/-- C6: subscribing to a topic not yet in the local set (by hash equality)
returns true, appends the topic, enqueues exactly one single-Subscribe
envelope per connected peer and changes nothing else; subscribing to a topic
already present returns false and changes no state. -/
theorem C6_subscribe_fresh_and_repeat (b : FloodsubBehaviour) (t : Topic)
    (hnodup : (b.connected_peers.map Prod.fst).Nodup) :
    ((b.subscribed_topics.any fun u => u.hash == t.hash) = true →
      b.subscribe t = (false, b)) ∧
    ((b.subscribed_topics.any fun u => u.hash == t.hash) = false →
      (b.subscribe t).1 = true ∧
      (b.subscribe t).2.subscribed_topics = b.subscribed_topics ++ [t] ∧
      (b.subscribe t).2.connected_peers = b.connected_peers ∧
      (b.subscribe t).2.received = b.received ∧
      (b.subscribe t).2.seq_no = b.seq_no ∧
      (∀ a ∈ newEvents b (b.subscribe t).2, ∃ q, q ∈ b.connected_peers.map Prod.fst ∧
        a = NetworkBehaviorAction.SendEvent q
          { messages := []
            subscriptions := [{ topic := t.hash
                                action := FloodsubSubscriptionAction.Subscribe }] }) ∧
      (∀ q, (newEvents b (b.subscribe t).2).countP (sendsTo q) =
        if q ∈ b.connected_peers.map Prod.fst then 1 else 0)) := by
  constructor
  · intro h
    unfold FloodsubBehaviour.subscribe
    rw [if_pos h]
  · intro h
    have hr : b.subscribe t =
        (true,
          { b with
            events := b.events ++ (b.connected_peers.map fun pr =>
              NetworkBehaviorAction.SendEvent pr.1
                { messages := []
                  subscriptions := [{ topic := t.hash
                                      action := FloodsubSubscriptionAction.Subscribe }] })
            subscribed_topics := b.subscribed_topics ++ [t] }) := by
      unfold FloodsubBehaviour.subscribe
      rw [if_neg (by simp [h])]
    have hnew : newEvents b (b.subscribe t).2 =
        (b.connected_peers.map fun pr =>
          NetworkBehaviorAction.SendEvent pr.1
            { messages := []
              subscriptions := [{ topic := t.hash
                                  action := FloodsubSubscriptionAction.Subscribe }] }) := by
      rw [hr]
      unfold newEvents
      exact List.drop_left _ _
    rw [hnew, hr]
    refine ⟨rfl, rfl, rfl, rfl, rfl, ?_, ?_⟩
    · intro a ha
      rcases List.mem_map.mp ha with ⟨pr, hpr, rfl⟩
      exact ⟨pr.1, List.mem_map.mpr ⟨pr, hpr, rfl⟩, rfl⟩
    · intro q
      rw [List.countP_map]
      have hcong := List.countP_congr
        (show ∀ x ∈ b.connected_peers,
          ((sendsTo q) ∘ fun pr =>
            NetworkBehaviorAction.SendEvent pr.1
              { messages := []
                subscriptions := [{ topic := t.hash
                                    action := FloodsubSubscriptionAction.Subscribe }] }) x = true ↔
          (fun pr => decide (pr.1 = q)) x = true from fun x _ => Iff.rfl)
      rw [hcong]
      exact countP_keyEq_nodup b.connected_peers q hnodup

/-- Witness for C6: subscribing to the present topic 9 is a no-op returning
false; subscribing to the fresh topic 5 returns true. -/
theorem C6_subscribe_fresh_and_repeat_witness :
    bC6.subscribe { hash := 9 } = (false, bC6) ∧
    (bC6.subscribe { hash := 5 }).1 = true :=
  ⟨(C6_subscribe_fresh_and_repeat bC6 { hash := 9 } (by decide)).1 (by decide),
   ((C6_subscribe_fresh_and_repeat bC6 { hash := 5 } (by decide)).2 (by decide)).1⟩

/-! ### Publish fan-out: C3 -/

lemma publish_many_ungated (b : FloodsubBehaviour) (ts : List TopicHash)
    (d : List Nat)
    (h : (b.subscribed_topics.any fun t => ts.any fun u => t.hash == u) = true) :
    b.publish_many ts d =
      { b with
        seq_no := b.seq_no + 1
        received := b.received ++ [mkMessage b ts d]
        events := b.events ++
          ((b.connected_peers.filter fun pr =>
              pr.2.any fun t => ts.any fun u => t == u).map fun pr =>
            NetworkBehaviorAction.SendEvent pr.1
              { messages := [mkMessage b ts d], subscriptions := [] }) } := by
  unfold FloodsubBehaviour.publish_many
  dsimp only
  rw [if_neg (by
    show ¬(!(b.subscribed_topics.any fun t => ts.any fun u => t.hash == u)) = true
    simp [h])]
  rfl

/-- C3: an ungated publish enqueues exactly one envelope, containing exactly
the published message and no subscriptions, per connected peer whose topic
set overlaps the message topics, and no envelope to any other peer. -/
theorem C3_publish_fanout (b : FloodsubBehaviour) (ts : List TopicHash)
    (d : List Nat)
    (hgate : (b.subscribed_topics.any fun t => ts.any fun u => t.hash == u) = true)
    (hnodup : (b.connected_peers.map Prod.fst).Nodup) :
    (∀ a ∈ newEvents b (b.publish_many ts d), ∃ q subs,
      (q, subs) ∈ b.connected_peers ∧
      (subs.any fun t => ts.any fun u => t == u) = true ∧
      a = NetworkBehaviorAction.SendEvent q
        { messages := [mkMessage b ts d], subscriptions := [] }) ∧
    (∀ q subs, (q, subs) ∈ b.connected_peers →
      (newEvents b (b.publish_many ts d)).countP (sendsTo q) =
        if subs.any fun t => ts.any fun u => t == u then 1 else 0) := by
  have hnew : newEvents b (b.publish_many ts d) =
      ((b.connected_peers.filter fun pr =>
          pr.2.any fun t => ts.any fun u => t == u).map fun pr =>
        NetworkBehaviorAction.SendEvent pr.1
          { messages := [mkMessage b ts d], subscriptions := [] }) := by
    rw [publish_many_ungated b ts d hgate]
    unfold newEvents
    exact List.drop_left _ _
  rw [hnew]
  constructor
  · intro a ha
    rcases List.mem_map.mp ha with ⟨pr, hpr, rfl⟩
    rcases List.mem_filter.mp hpr with ⟨hmem, hov⟩
    exact ⟨pr.1, pr.2, hmem, hov, rfl⟩
  · intro q subs hmem
    rw [List.countP_map]
    have hcong := List.countP_congr
      (show ∀ x ∈ (b.connected_peers.filter fun pr =>
          pr.2.any fun t => ts.any fun u => t == u),
        ((sendsTo q) ∘ fun pr =>
          NetworkBehaviorAction.SendEvent pr.1
            { messages := [mkMessage b ts d], subscriptions := [] }) x = true ↔
        (fun pr => decide (pr.1 = q)) x = true from fun x _ => Iff.rfl)
    rw [hcong, List.countP_filter]
    exact countP_key_and_nodup b.connected_peers q subs _ hmem hnodup

/-- Witness for C3: publishing on topic 10 sends exactly one envelope to
peers 1 and 3 and none to peer 2. -/
theorem C3_publish_fanout_witness :
    (newEvents bC3 (bC3.publish_many [10] [7])).countP (sendsTo 1) = 1 ∧
    (newEvents bC3 (bC3.publish_many [10] [7])).countP (sendsTo 2) = 0 ∧
    (newEvents bC3 (bC3.publish_many [10] [7])).countP (sendsTo 3) = 1 := by
  have h := C3_publish_fanout bC3 [10] [7] (by decide) (by decide)
  refine ⟨?_, ?_, ?_⟩
  · have := h.2 1 [10] (by decide)
    simpa using this
  · have := h.2 2 [20] (by decide)
    simpa using this
  · have := h.2 3 [10, 20] (by decide)
    simpa using this

/-! ### Structural lemmas about `processMessage` -/

lemma processMessage_of_mem (src : PeerId)
    (st : FloodsubBehaviour × List (PeerId × FloodsubRpc))
    (m2 : FloodsubMessage) (h : m2 ∈ st.1.received) :
    processMessage src st m2 = st := by
  unfold processMessage
  rw [if_pos h]

lemma processMessage_received_of_not_mem (src : PeerId)
    (st : FloodsubBehaviour × List (PeerId × FloodsubRpc))
    (m2 : FloodsubMessage) (h : m2 ∉ st.1.received) :
    (processMessage src st m2).1.received = st.1.received ++ [m2] := by
  unfold processMessage
  rw [if_neg h]
  dsimp only
  split <;> rfl

lemma processMessage_connected (src : PeerId)
    (st : FloodsubBehaviour × List (PeerId × FloodsubRpc))
    (m2 : FloodsubMessage) :
    (processMessage src st m2).1.connected_peers = st.1.connected_peers := by
  unfold processMessage
  split
  · rfl
  · dsimp only
    split <;> rfl

lemma processMessage_events_of_not_mem (src : PeerId)
    (st : FloodsubBehaviour × List (PeerId × FloodsubRpc))
    (m2 : FloodsubMessage) (h : m2 ∉ st.1.received) :
    (processMessage src st m2).1.events = st.1.events ∨
    (processMessage src st m2).1.events =
      st.1.events ++ [NetworkBehaviorAction.GenerateEvent m2] := by
  unfold processMessage
  rw [if_neg h]
  dsimp only
  split
  · right
    rfl
  · left
    rfl

lemma processMessage_events_topics_nil (src : PeerId)
    (st : FloodsubBehaviour × List (PeerId × FloodsubRpc))
    (m2 : FloodsubMessage) (h : m2 ∉ st.1.received) (ht : m2.topics = []) :
    (processMessage src st m2).1.events = st.1.events := by
  unfold processMessage
  rw [if_neg h]
  dsimp only
  rw [if_neg (by rw [ht]; simp)]

lemma processMessage_rpcs_of_not_mem (src : PeerId)
    (st : FloodsubBehaviour × List (PeerId × FloodsubRpc))
    (m2 : FloodsubMessage) (h : m2 ∉ st.1.received) :
    (processMessage src st m2).2 =
      st.1.connected_peers.foldl (relayStep src m2) st.2 := by
  unfold processMessage
  rw [if_neg h]
  dsimp only
  split <;> rfl

/-! ### Lemmas about `pushToPeer` and `relayStep` -/

lemma pushToPeer_fst_mem (rpcs : List (PeerId × FloodsubRpc)) (p : PeerId)
    (m : FloodsubMessage) :
    ∀ pr ∈ pushToPeer rpcs p m, pr.1 = p ∨ pr.1 ∈ rpcs.map Prod.fst := by
  induction rpcs with
  | nil =>
    intro pr hpr
    simp only [pushToPeer, List.mem_singleton] at hpr
    subst hpr
    left
    rfl
  | cons pr0 rest ih =>
    intro pr hpr
    simp only [pushToPeer] at hpr
    by_cases h : (pr0.1 == p) = true
    · rw [if_pos h] at hpr
      rcases List.mem_cons.mp hpr with heq | htail
      · subst heq
        right
        simp
      · right
        rw [List.map_cons]
        exact List.mem_cons_of_mem _ (List.mem_map_of_mem Prod.fst htail)
    · rw [if_neg h] at hpr
      rcases List.mem_cons.mp hpr with heq | htail
      · subst heq
        right
        simp
      · rcases ih pr htail with hl | hr
        · left
          exact hl
        · right
          rw [List.map_cons]
          exact List.mem_cons_of_mem _ hr

lemma pushToPeer_map_fst (rpcs : List (PeerId × FloodsubRpc)) (p : PeerId)
    (m : FloodsubMessage) :
    (pushToPeer rpcs p m).map Prod.fst =
      if p ∈ rpcs.map Prod.fst then rpcs.map Prod.fst
      else rpcs.map Prod.fst ++ [p] := by
  induction rpcs with
  | nil => simp [pushToPeer]
  | cons pr0 rest ih =>
    simp only [pushToPeer]
    by_cases h : (pr0.1 == p) = true
    · have hp : pr0.1 = p := by simpa using h
      rw [if_pos h]
      subst hp
      simp [List.map_cons, List.mem_cons]
    · have hp : pr0.1 ≠ p := by simpa using h
      rw [if_neg h]
      simp only [List.map_cons, ih]
      by_cases hmem : p ∈ rest.map Prod.fst
      · rw [if_pos hmem, if_pos (List.mem_cons_of_mem _ hmem)]
      · rw [if_neg hmem, if_neg (fun hc => by
          rcases List.mem_cons.mp hc with h1 | h1
          · exact hp h1.symm
          · exact hmem h1)]
        simp

lemma pushToPeer_nodup (rpcs : List (PeerId × FloodsubRpc)) (p : PeerId)
    (m : FloodsubMessage) (h : (rpcs.map Prod.fst).Nodup) :
    ((pushToPeer rpcs p m).map Prod.fst).Nodup := by
  rw [pushToPeer_map_fst]
  split
  · exact h
  · rename_i hmem
    refine List.nodup_append.mpr ⟨h, List.nodup_singleton _, ?_⟩
    intro a ha hb
    rw [List.mem_singleton] at hb
    subst hb
    exact hmem ha

lemma pushToPeer_mem_msgs (rpcs : List (PeerId × FloodsubRpc)) (p : PeerId)
    (m : FloodsubMessage) :
    ∀ pr ∈ pushToPeer rpcs p m, ∀ x ∈ pr.2.messages,
      (∃ pr0 ∈ rpcs, x ∈ pr0.2.messages) ∨ x = m := by
  induction rpcs with
  | nil =>
    intro pr hpr x hx
    simp only [pushToPeer, List.mem_singleton] at hpr
    subst hpr
    right
    simpa using hx
  | cons pr0 rest ih =>
    intro pr hpr x hx
    simp only [pushToPeer] at hpr
    by_cases h : (pr0.1 == p) = true
    · rw [if_pos h] at hpr
      rcases List.mem_cons.mp hpr with heq | htail
      · subst heq
        rcases List.mem_append.mp hx with hl | hr
        · left
          exact ⟨pr0, List.mem_cons_self _ _, hl⟩
        · right
          simpa using hr
      · left
        exact ⟨pr, List.mem_cons_of_mem _ htail, hx⟩
    · rw [if_neg h] at hpr
      rcases List.mem_cons.mp hpr with heq | htail
      · subst heq
        left
        exact ⟨pr, List.mem_cons_self _ _, hx⟩
      · rcases ih pr htail x hx with ⟨pr1, h1, h2⟩ | hxm
        · left
          exact ⟨pr1, List.mem_cons_of_mem _ h1, h2⟩
        · right
          exact hxm

lemma relayStep_cases (src : PeerId) (message : FloodsubMessage)
    (rpcs : List (PeerId × FloodsubRpc)) (entry : PeerId × List TopicHash) :
    relayStep src message rpcs entry = rpcs ∨
    ((entry.1 == src) = false ∧
      relayStep src message rpcs entry = pushToPeer rpcs entry.1 message) := by
  unfold relayStep
  by_cases h1 : (entry.1 == src) = true
  · rw [if_pos h1]
    left
    rfl
  · rw [if_neg h1]
    by_cases h2 : (entry.2.any fun t => message.topics.any fun u => t == u) = true
    · rw [if_pos h2]
      right
      exact ⟨by rwa [Bool.not_eq_true] at h1, rfl⟩
    · rw [if_neg h2]
      left
      rfl

lemma foldl_relayStep_nomsg (src : PeerId) (m2 m : FloodsubMessage)
    (hne : m ≠ m2) :
    ∀ (peers : List (PeerId × List TopicHash))
      (rpcs : List (PeerId × FloodsubRpc)),
      (∀ pr ∈ rpcs, m ∉ pr.2.messages) →
      ∀ pr ∈ peers.foldl (relayStep src m2) rpcs, m ∉ pr.2.messages := by
  intro peers
  induction peers with
  | nil =>
    intro rpcs h
    simpa using h
  | cons e rest ih =>
    intro rpcs h
    rw [List.foldl_cons]
    apply ih
    rcases relayStep_cases src m2 rpcs e with heq | ⟨_, heq⟩
    · rw [heq]
      exact h
    · rw [heq]
      intro pr hpr hmem
      rcases pushToPeer_mem_msgs rpcs e.1 m2 pr hpr m hmem with ⟨pr0, h0, hm0⟩ | hxm
      · exact h pr0 h0 hm0
      · exact hne hxm

lemma foldl_relayStep_nodup (src : PeerId) (m2 : FloodsubMessage) :
    ∀ (peers : List (PeerId × List TopicHash))
      (rpcs : List (PeerId × FloodsubRpc)),
      ((rpcs.map Prod.fst).Nodup) →
      (((peers.foldl (relayStep src m2) rpcs).map Prod.fst).Nodup) := by
  intro peers
  induction peers with
  | nil =>
    intro rpcs h
    simpa using h
  | cons e rest ih =>
    intro rpcs h
    rw [List.foldl_cons]
    apply ih
    rcases relayStep_cases src m2 rpcs e with heq | ⟨_, heq⟩
    · rw [heq]
      exact h
    · rw [heq]
      exact pushToPeer_nodup rpcs e.1 m2 h

lemma foldl_relayStep_ne_src (src : PeerId) (m2 : FloodsubMessage) :
    ∀ (peers : List (PeerId × List TopicHash))
      (rpcs : List (PeerId × FloodsubRpc)),
      (∀ pr ∈ rpcs, pr.1 ≠ src) →
      ∀ pr ∈ peers.foldl (relayStep src m2) rpcs, pr.1 ≠ src := by
  intro peers
  induction peers with
  | nil =>
    intro rpcs h
    simpa using h
  | cons e rest ih =>
    intro rpcs h
    rw [List.foldl_cons]
    apply ih
    rcases relayStep_cases src m2 rpcs e with heq | ⟨hne, heq⟩
    · rw [heq]
      exact h
    · rw [heq]
      intro pr hpr
      rcases pushToPeer_fst_mem rpcs e.1 m2 pr hpr with hl | hr
      · rw [hl]
        intro hc
        rw [hc] at hne
        simp at hne
      · rcases List.mem_map.mp hr with ⟨pr0, h0, hfst⟩
        rw [← hfst]
        exact h pr0 h0

lemma foldl_relayStep_id_topics_nil (src : PeerId) (m2 : FloodsubMessage)
    (ht : m2.topics = []) :
    ∀ (peers : List (PeerId × List TopicHash))
      (rpcs : List (PeerId × FloodsubRpc)),
      peers.foldl (relayStep src m2) rpcs = rpcs := by
  intro peers
  induction peers with
  | nil =>
    intro rpcs
    rfl
  | cons e rest ih =>
    intro rpcs
    rw [List.foldl_cons]
    have hstep : relayStep src m2 rpcs e = rpcs := by
      unfold relayStep
      split
      · rfl
      · rw [if_neg (by rw [ht]; simp)]
    rw [hstep]
    exact ih rpcs

/-! ### Counting helpers -/

lemma deliverCount_append (m : FloodsubMessage)
    (l1 l2 : List NetworkBehaviorAction) :
    deliverCount m (l1 ++ l2) = deliverCount m l1 + deliverCount m l2 := by
  unfold deliverCount
  rw [List.countP_append]

lemma relayEnvCount_append (m : FloodsubMessage) (q : PeerId)
    (l1 l2 : List NetworkBehaviorAction) :
    relayEnvCount m q (l1 ++ l2) = relayEnvCount m q l1 + relayEnvCount m q l2 := by
  unfold relayEnvCount
  rw [List.countP_append]

lemma deliverCount_gen (m m2 : FloodsubMessage) :
    deliverCount m [NetworkBehaviorAction.GenerateEvent m2] =
      if m2 = m then 1 else 0 := by
  unfold deliverCount
  by_cases h : m2 = m <;> simp [List.countP_cons, h]

lemma deliverCount_sends (m : FloodsubMessage)
    (rpcs : List (PeerId × FloodsubRpc)) :
    deliverCount m (rpcs.map fun pr =>
      NetworkBehaviorAction.SendEvent pr.1 pr.2) = 0 := by
  unfold deliverCount
  rw [List.countP_map]
  apply List.countP_eq_zero.mpr
  intro a _
  simp [Function.comp]

lemma relayEnvCount_sends_le (m : FloodsubMessage) (q : PeerId)
    (rpcs : List (PeerId × FloodsubRpc)) (h : (rpcs.map Prod.fst).Nodup) :
    relayEnvCount m q (rpcs.map fun pr =>
      NetworkBehaviorAction.SendEvent pr.1 pr.2) ≤ 1 := by
  unfold relayEnvCount
  rw [List.countP_map]
  have hle : rpcs.countP ((isRelayOf m q) ∘ fun pr =>
      NetworkBehaviorAction.SendEvent pr.1 pr.2) ≤
      rpcs.countP fun pr => decide (pr.1 = q) := by
    apply List.countP_mono_left
    intro pr _ hp
    simp only [Function.comp, isRelayOf, Bool.and_eq_true, decide_eq_true_eq] at hp
    simpa using hp.1
  refine le_trans hle ?_
  rw [countP_keyEq_nodup rpcs q h]
  split <;> simp

lemma relayEnvCount_sends_zero (m : FloodsubMessage) (q : PeerId)
    (rpcs : List (PeerId × FloodsubRpc)) (h : ∀ pr ∈ rpcs, m ∉ pr.2.messages) :
    relayEnvCount m q (rpcs.map fun pr =>
      NetworkBehaviorAction.SendEvent pr.1 pr.2) = 0 := by
  unfold relayEnvCount
  rw [List.countP_map]
  apply List.countP_eq_zero.mpr
  intro pr hpr hc
  simp only [Function.comp, isRelayOf, Bool.and_eq_true, decide_eq_true_eq] at hc
  exact h pr hpr hc.2

lemma sendCount_sends_zero (q : PeerId) (rpcs : List (PeerId × FloodsubRpc))
    (h : ∀ pr ∈ rpcs, pr.1 ≠ q) :
    (rpcs.map fun pr =>
      NetworkBehaviorAction.SendEvent pr.1 pr.2).countP (sendsTo q) = 0 := by
  rw [List.countP_map]
  apply List.countP_eq_zero.mpr
  intro pr hpr hc
  simp only [Function.comp, sendsTo, decide_eq_true_eq] at hc
  exact h pr hpr hc

/-! ### Lemmas about the message fold of `inject_node_event` -/

lemma foldMsgs_received_mono (src : PeerId) (x : FloodsubMessage) :
    ∀ (ms : List FloodsubMessage)
      (st : FloodsubBehaviour × List (PeerId × FloodsubRpc)),
      x ∈ st.1.received → x ∈ (ms.foldl (processMessage src) st).1.received := by
  intro ms
  induction ms with
  | nil =>
    intro st h
    simpa using h
  | cons m2 rest ih =>
    intro st h
    rw [List.foldl_cons]
    apply ih
    by_cases hm : m2 ∈ st.1.received
    · rw [processMessage_of_mem src st m2 hm]
      exact h
    · rw [processMessage_received_of_not_mem src st m2 hm]
      exact List.mem_append_left _ h

lemma foldMsgs_mem_received (src : PeerId) (m : FloodsubMessage) :
    ∀ (ms : List FloodsubMessage)
      (st : FloodsubBehaviour × List (PeerId × FloodsubRpc)),
      m ∈ ms → m ∈ (ms.foldl (processMessage src) st).1.received := by
  intro ms
  induction ms with
  | nil =>
    intro st h
    simp at h
  | cons m2 rest ih =>
    intro st h
    rw [List.foldl_cons]
    rcases List.mem_cons.mp h with heq | htail
    · subst heq
      apply foldMsgs_received_mono
      by_cases hm : m ∈ st.1.received
      · rw [processMessage_of_mem src st m hm]
        exact hm
      · rw [processMessage_received_of_not_mem src st m hm]
        exact List.mem_append_right _ (by simp)
    · exact ih _ htail

lemma foldMsgs_connected (src : PeerId) :
    ∀ (ms : List FloodsubMessage)
      (st : FloodsubBehaviour × List (PeerId × FloodsubRpc)),
      (ms.foldl (processMessage src) st).1.connected_peers =
        st.1.connected_peers := by
  intro ms
  induction ms with
  | nil =>
    intro st
    rfl
  | cons m2 rest ih =>
    intro st
    rw [List.foldl_cons, ih, processMessage_connected]

lemma foldMsgs_sendCount (src : PeerId) (p2 : NetworkBehaviorAction → Bool)
    (hp : ∀ m2, p2 (NetworkBehaviorAction.GenerateEvent m2) = false) :
    ∀ (ms : List FloodsubMessage)
      (st : FloodsubBehaviour × List (PeerId × FloodsubRpc)),
      ((ms.foldl (processMessage src) st).1.events).countP p2 =
        (st.1.events).countP p2 := by
  intro ms
  induction ms with
  | nil =>
    intro st
    rfl
  | cons m2 rest ih =>
    intro st
    rw [List.foldl_cons, ih]
    by_cases hm : m2 ∈ st.1.received
    · rw [processMessage_of_mem src st m2 hm]
    · rcases processMessage_events_of_not_mem src st m2 hm with he | he
      · rw [he]
      · rw [he, List.countP_append]
        simp [List.countP_cons, hp m2]

lemma foldMsgs_events_extend (src : PeerId) :
    ∀ (ms : List FloodsubMessage)
      (st : FloodsubBehaviour × List (PeerId × FloodsubRpc)),
      ∃ t, (ms.foldl (processMessage src) st).1.events = st.1.events ++ t := by
  intro ms
  induction ms with
  | nil =>
    intro st
    exact ⟨[], by simp⟩
  | cons m2 rest ih =>
    intro st
    rw [List.foldl_cons]
    by_cases hm : m2 ∈ st.1.received
    · rw [processMessage_of_mem src st m2 hm]
      exact ih st
    · obtain ⟨t1, ht1⟩ := ih (processMessage src st m2)
      rcases processMessage_events_of_not_mem src st m2 hm with he | he
      · rw [he] at ht1
        exact ⟨t1, ht1⟩
      · rw [he, List.append_assoc] at ht1
        exact ⟨[NetworkBehaviorAction.GenerateEvent m2] ++ t1, ht1⟩

lemma foldMsgs_deliver_of_mem (src : PeerId) (m : FloodsubMessage) :
    ∀ (ms : List FloodsubMessage)
      (st : FloodsubBehaviour × List (PeerId × FloodsubRpc)),
      m ∈ st.1.received →
      deliverCount m (ms.foldl (processMessage src) st).1.events =
        deliverCount m st.1.events := by
  intro ms
  induction ms with
  | nil =>
    intro st _
    rfl
  | cons m2 rest ih =>
    intro st h
    rw [List.foldl_cons]
    by_cases hm : m2 ∈ st.1.received
    · rw [processMessage_of_mem src st m2 hm]
      exact ih st h
    · have hne : m2 ≠ m := fun hc => hm (hc ▸ h)
      have hd : deliverCount m (processMessage src st m2).1.events =
          deliverCount m st.1.events := by
        rcases processMessage_events_of_not_mem src st m2 hm with he | he
        · rw [he]
        · rw [he, deliverCount_append, deliverCount_gen, if_neg hne]
          omega
      have hmem : m ∈ (processMessage src st m2).1.received := by
        rw [processMessage_received_of_not_mem src st m2 hm]
        exact List.mem_append_left _ h
      rw [ih _ hmem, hd]

lemma foldMsgs_deliver_le (src : PeerId) (m : FloodsubMessage) :
    ∀ (ms : List FloodsubMessage)
      (st : FloodsubBehaviour × List (PeerId × FloodsubRpc)),
      deliverCount m (ms.foldl (processMessage src) st).1.events ≤
        deliverCount m st.1.events + 1 := by
  intro ms
  induction ms with
  | nil =>
    intro st
    simp
  | cons m2 rest ih =>
    intro st
    rw [List.foldl_cons]
    by_cases hm : m2 ∈ st.1.received
    · rw [processMessage_of_mem src st m2 hm]
      exact ih st
    · by_cases heq : m2 = m
      · subst heq
        have hmem : m2 ∈ (processMessage src st m2).1.received := by
          rw [processMessage_received_of_not_mem src st m2 hm]
          exact List.mem_append_right _ (by simp)
        rw [foldMsgs_deliver_of_mem src m2 rest _ hmem]
        rcases processMessage_events_of_not_mem src st m2 hm with he | he
        · rw [he]
          omega
        · rw [he, deliverCount_append, deliverCount_gen, if_pos rfl]
      · have hd : deliverCount m (processMessage src st m2).1.events =
            deliverCount m st.1.events := by
          rcases processMessage_events_of_not_mem src st m2 hm with he | he
          · rw [he]
          · rw [he, deliverCount_append, deliverCount_gen, if_neg heq]
            omega
        have := ih (processMessage src st m2)
        rw [hd] at this
        exact this

lemma foldMsgs_deliver_of_not_received (src : PeerId) (m : FloodsubMessage) :
    ∀ (ms : List FloodsubMessage)
      (st : FloodsubBehaviour × List (PeerId × FloodsubRpc)),
      m ∉ (ms.foldl (processMessage src) st).1.received →
      deliverCount m (ms.foldl (processMessage src) st).1.events =
        deliverCount m st.1.events := by
  intro ms
  induction ms with
  | nil =>
    intro st _
    rfl
  | cons m2 rest ih =>
    intro st hfin
    rw [List.foldl_cons] at hfin ⊢
    by_cases hm : m2 ∈ st.1.received
    · rw [processMessage_of_mem src st m2 hm] at hfin ⊢
      exact ih st hfin
    · by_cases heq : m2 = m
      · exfalso
        apply hfin
        apply foldMsgs_received_mono
        rw [processMessage_received_of_not_mem src st m2 hm]
        subst heq
        exact List.mem_append_right _ (by simp)
      · have hd : deliverCount m (processMessage src st m2).1.events =
            deliverCount m st.1.events := by
          rcases processMessage_events_of_not_mem src st m2 hm with he | he
          · rw [he]
          · rw [he, deliverCount_append, deliverCount_gen, if_neg heq]
            omega
        rw [ih _ hfin, hd]

lemma foldMsgs_deliver_topics_nil (src : PeerId) (m : FloodsubMessage)
    (ht : m.topics = []) :
    ∀ (ms : List FloodsubMessage)
      (st : FloodsubBehaviour × List (PeerId × FloodsubRpc)),
      deliverCount m (ms.foldl (processMessage src) st).1.events =
        deliverCount m st.1.events := by
  intro ms
  induction ms with
  | nil =>
    intro st
    rfl
  | cons m2 rest ih =>
    intro st
    rw [List.foldl_cons, ih]
    by_cases hm : m2 ∈ st.1.received
    · rw [processMessage_of_mem src st m2 hm]
    · by_cases heq : m2 = m
      · rw [processMessage_events_topics_nil src st m2 hm (heq ▸ ht)]
      · rcases processMessage_events_of_not_mem src st m2 hm with he | he
        · rw [he]
        · rw [he, deliverCount_append, deliverCount_gen, if_neg heq]
          omega

lemma foldMsgs_rpcs_nomsg_of_mem (src : PeerId) (m : FloodsubMessage) :
    ∀ (ms : List FloodsubMessage)
      (st : FloodsubBehaviour × List (PeerId × FloodsubRpc)),
      m ∈ st.1.received → (∀ pr ∈ st.2, m ∉ pr.2.messages) →
      ∀ pr ∈ (ms.foldl (processMessage src) st).2, m ∉ pr.2.messages := by
  intro ms
  induction ms with
  | nil =>
    intro st _ h2
    simpa using h2
  | cons m2 rest ih =>
    intro st h1 h2
    rw [List.foldl_cons]
    by_cases hm : m2 ∈ st.1.received
    · rw [processMessage_of_mem src st m2 hm]
      exact ih st h1 h2
    · have hne : m ≠ m2 := fun hc => hm (hc ▸ h1)
      have hA : m ∈ (processMessage src st m2).1.received := by
        rw [processMessage_received_of_not_mem src st m2 hm]
        exact List.mem_append_left _ h1
      have hB : ∀ pr ∈ (processMessage src st m2).2, m ∉ pr.2.messages := by
        rw [processMessage_rpcs_of_not_mem src st m2 hm]
        exact foldl_relayStep_nomsg src m2 m hne st.1.connected_peers st.2 h2
      exact ih _ hA hB

lemma foldMsgs_rpcs_nomsg_of_not_received (src : PeerId) (m : FloodsubMessage) :
    ∀ (ms : List FloodsubMessage)
      (st : FloodsubBehaviour × List (PeerId × FloodsubRpc)),
      m ∉ (ms.foldl (processMessage src) st).1.received →
      (∀ pr ∈ st.2, m ∉ pr.2.messages) →
      ∀ pr ∈ (ms.foldl (processMessage src) st).2, m ∉ pr.2.messages := by
  intro ms
  induction ms with
  | nil =>
    intro st _ h2
    simpa using h2
  | cons m2 rest ih =>
    intro st hfin h2
    rw [List.foldl_cons] at hfin ⊢
    by_cases hm : m2 ∈ st.1.received
    · rw [processMessage_of_mem src st m2 hm] at hfin ⊢
      exact ih st hfin h2
    · by_cases heq : m2 = m
      · exfalso
        apply hfin
        apply foldMsgs_received_mono
        rw [processMessage_received_of_not_mem src st m2 hm]
        subst heq
        exact List.mem_append_right _ (by simp)
      · have hne : m ≠ m2 := fun hc => heq hc.symm
        have hB : ∀ pr ∈ (processMessage src st m2).2, m ∉ pr.2.messages := by
          rw [processMessage_rpcs_of_not_mem src st m2 hm]
          exact foldl_relayStep_nomsg src m2 m hne st.1.connected_peers st.2 h2
        exact ih _ hfin hB

lemma foldMsgs_rpcs_nomsg_topics_nil (src : PeerId) (m : FloodsubMessage)
    (ht : m.topics = []) :
    ∀ (ms : List FloodsubMessage)
      (st : FloodsubBehaviour × List (PeerId × FloodsubRpc)),
      (∀ pr ∈ st.2, m ∉ pr.2.messages) →
      ∀ pr ∈ (ms.foldl (processMessage src) st).2, m ∉ pr.2.messages := by
  intro ms
  induction ms with
  | nil =>
    intro st h2
    simpa using h2
  | cons m2 rest ih =>
    intro st h2
    rw [List.foldl_cons]
    by_cases hm : m2 ∈ st.1.received
    · rw [processMessage_of_mem src st m2 hm]
      exact ih st h2
    · by_cases heq : m2 = m
      · have hid : (processMessage src st m2).2 = st.2 := by
          rw [processMessage_rpcs_of_not_mem src st m2 hm]
          exact foldl_relayStep_id_topics_nil src m2 (heq ▸ ht)
            st.1.connected_peers st.2
        exact ih _ (by rw [hid]; exact h2)
      · have hne : m ≠ m2 := fun hc => heq hc.symm
        have hB : ∀ pr ∈ (processMessage src st m2).2, m ∉ pr.2.messages := by
          rw [processMessage_rpcs_of_not_mem src st m2 hm]
          exact foldl_relayStep_nomsg src m2 m hne st.1.connected_peers st.2 h2
        exact ih _ hB

lemma foldMsgs_rpcs_nodup (src : PeerId) :
    ∀ (ms : List FloodsubMessage)
      (st : FloodsubBehaviour × List (PeerId × FloodsubRpc)),
      ((st.2.map Prod.fst).Nodup) →
      (((ms.foldl (processMessage src) st).2.map Prod.fst).Nodup) := by
  intro ms
  induction ms with
  | nil =>
    intro st h
    simpa using h
  | cons m2 rest ih =>
    intro st h
    rw [List.foldl_cons]
    by_cases hm : m2 ∈ st.1.received
    · rw [processMessage_of_mem src st m2 hm]
      exact ih st h
    · have hB : (((processMessage src st m2).2).map Prod.fst).Nodup := by
        rw [processMessage_rpcs_of_not_mem src st m2 hm]
        exact foldl_relayStep_nodup src m2 st.1.connected_peers st.2 h
      exact ih _ hB

lemma foldMsgs_rpcs_ne_src (src : PeerId) :
    ∀ (ms : List FloodsubMessage)
      (st : FloodsubBehaviour × List (PeerId × FloodsubRpc)),
      (∀ pr ∈ st.2, pr.1 ≠ src) →
      ∀ pr ∈ (ms.foldl (processMessage src) st).2, pr.1 ≠ src := by
  intro ms
  induction ms with
  | nil =>
    intro st h
    simpa using h
  | cons m2 rest ih =>
    intro st h
    rw [List.foldl_cons]
    by_cases hm : m2 ∈ st.1.received
    · rw [processMessage_of_mem src st m2 hm]
      exact ih st h
    · have hB : ∀ pr ∈ (processMessage src st m2).2, pr.1 ≠ src := by
        rw [processMessage_rpcs_of_not_mem src st m2 hm]
        exact foldl_relayStep_ne_src src m2 st.1.connected_peers st.2 h
      exact ih _ hB

/-! ### Splitting the events appended by one `inject_node_event` call -/

lemma drop_append_trans (A B C n1 n2 : List NetworkBehaviorAction)
    (h1 : B = A ++ n1) (h2 : C = B ++ n2) :
    C.drop A.length = n1 ++ n2 := by
  subst h2
  subst h1
  rw [List.append_assoc, List.drop_left]

lemma inject_events_split (b : FloodsubBehaviour) (src : PeerId)
    (e : FloodsubRpc) :
    (b.inject_node_event src e).events =
      b.events ++ newEvents b (b.inject_node_event src e) := by
  obtain ⟨t, ht⟩ := foldMsgs_events_extend src e.messages (b, [])
  have ht2 : (e.messages.foldl (processMessage src) (b, [])).1.events =
      b.events ++ t := ht
  have hev : (b.inject_node_event src e).events =
      (e.messages.foldl (processMessage src) (b, [])).1.events ++
        ((e.messages.foldl (processMessage src) (b, [])).2.map fun pr =>
          NetworkBehaviorAction.SendEvent pr.1 pr.2) := rfl
  unfold newEvents
  rw [hev, ht2, List.append_assoc, List.drop_left]

lemma inject_deliver_eq (b : FloodsubBehaviour) (src : PeerId)
    (e : FloodsubRpc) (m : FloodsubMessage) :
    deliverCount m b.events +
      deliverCount m (newEvents b (b.inject_node_event src e)) =
      deliverCount m ((e.messages.foldl (processMessage src) (b, [])).1.events) := by
  have hev : (b.inject_node_event src e).events =
      (e.messages.foldl (processMessage src) (b, [])).1.events ++
        ((e.messages.foldl (processMessage src) (b, [])).2.map fun pr =>
          NetworkBehaviorAction.SendEvent pr.1 pr.2) := rfl
  have h1 : deliverCount m (b.inject_node_event src e).events =
      deliverCount m ((e.messages.foldl (processMessage src) (b, [])).1.events) := by
    rw [hev, deliverCount_append, deliverCount_sends]
    omega
  rw [inject_events_split b src e, deliverCount_append] at h1
  exact h1

lemma inject_relay_eq (b : FloodsubBehaviour) (src : PeerId) (e : FloodsubRpc)
    (m : FloodsubMessage) (q : PeerId) :
    relayEnvCount m q (newEvents b (b.inject_node_event src e)) =
      relayEnvCount m q
        (((e.messages.foldl (processMessage src) (b, [])).2).map fun pr =>
          NetworkBehaviorAction.SendEvent pr.1 pr.2) := by
  have hev : (b.inject_node_event src e).events =
      (e.messages.foldl (processMessage src) (b, [])).1.events ++
        ((e.messages.foldl (processMessage src) (b, [])).2.map fun pr =>
          NetworkBehaviorAction.SendEvent pr.1 pr.2) := rfl
  have hfold : relayEnvCount m q
      ((e.messages.foldl (processMessage src) (b, [])).1.events) =
      relayEnvCount m q b.events :=
    foldMsgs_sendCount src (isRelayOf m q) (fun _ => rfl) e.messages (b, [])
  have h1 : relayEnvCount m q (b.inject_node_event src e).events =
      relayEnvCount m q b.events +
        relayEnvCount m q
          (((e.messages.foldl (processMessage src) (b, [])).2).map fun pr =>
            NetworkBehaviorAction.SendEvent pr.1 pr.2) := by
    rw [hev, relayEnvCount_append, hfold]
  rw [inject_events_split b src e, relayEnvCount_append] at h1
  omega

/-- Per-call deduplication facts about `inject_node_event` for one fixed
message: at most one deliver and at most one relay envelope per destination;
nothing at all if the message was already seen beforehand, or was never
recorded as seen by the call. -/
lemma inject_call_facts (b : FloodsubBehaviour) (src : PeerId)
    (e : FloodsubRpc) (m : FloodsubMessage) :
    deliverCount m (newEvents b (b.inject_node_event src e)) ≤ 1 ∧
    (∀ q, relayEnvCount m q (newEvents b (b.inject_node_event src e)) ≤ 1) ∧
    (m ∈ b.received →
      deliverCount m (newEvents b (b.inject_node_event src e)) = 0 ∧
      (∀ q, relayEnvCount m q (newEvents b (b.inject_node_event src e)) = 0) ∧
      m ∈ (b.inject_node_event src e).received) ∧
    (m ∉ (b.inject_node_event src e).received →
      deliverCount m (newEvents b (b.inject_node_event src e)) = 0 ∧
      ∀ q, relayEnvCount m q (newEvents b (b.inject_node_event src e)) = 0) := by
  refine ⟨?_, ?_, ?_, ?_⟩
  · have heq := inject_deliver_eq b src e m
    have hle : deliverCount m
        ((e.messages.foldl (processMessage src) (b, [])).1.events) ≤
        deliverCount m b.events + 1 :=
      foldMsgs_deliver_le src m e.messages (b, [])
    omega
  · intro q
    rw [inject_relay_eq b src e m q]
    apply relayEnvCount_sends_le
    apply foldMsgs_rpcs_nodup src e.messages (b, [])
    simp
  · intro hm
    have hmem : m ∈ (b.inject_node_event src e).received :=
      foldMsgs_received_mono src m e.messages (b, []) hm
    refine ⟨?_, ?_, hmem⟩
    · have heq := inject_deliver_eq b src e m
      have hfold : deliverCount m
          ((e.messages.foldl (processMessage src) (b, [])).1.events) =
          deliverCount m b.events :=
        foldMsgs_deliver_of_mem src m e.messages (b, []) hm
      omega
    · intro q
      rw [inject_relay_eq b src e m q]
      apply relayEnvCount_sends_zero
      apply foldMsgs_rpcs_nomsg_of_mem src m e.messages (b, []) hm
      simp
  · intro hm
    have hm2 : m ∉ (e.messages.foldl (processMessage src) (b, [])).1.received := hm
    constructor
    · have heq := inject_deliver_eq b src e m
      have hfold : deliverCount m
          ((e.messages.foldl (processMessage src) (b, [])).1.events) =
          deliverCount m b.events :=
        foldMsgs_deliver_of_not_received src m e.messages (b, []) hm2
      omega
    · intro q
      rw [inject_relay_eq b src e m q]
      apply relayEnvCount_sends_zero
      apply foldMsgs_rpcs_nomsg_of_not_received src m e.messages (b, []) hm2
      simp

/-- C2: across two successive inbound calls (covering duplicates inside one
envelope and across envelopes, from any source peers), a fixed message is
delivered to the application at most once and relayed to each destination
peer in at most one envelope. -/
theorem C2_duplicate_delivery_bound (b : FloodsubBehaviour) (p1 p2 : PeerId)
    (e1 e2 : FloodsubRpc) (m : FloodsubMessage) :
    deliverCount m
      (newEvents b ((b.inject_node_event p1 e1).inject_node_event p2 e2)) ≤ 1 ∧
    ∀ q, relayEnvCount m q
      (newEvents b ((b.inject_node_event p1 e1).inject_node_event p2 e2)) ≤ 1 := by
  obtain ⟨b1, hb1⟩ : ∃ x, x = b.inject_node_event p1 e1 := ⟨_, rfl⟩
  rw [← hb1]
  have spec1 := inject_call_facts b p1 e1 m
  rw [← hb1] at spec1
  have spec2 := inject_call_facts b1 p2 e2 m
  have hsplit1 := inject_events_split b p1 e1
  rw [← hb1] at hsplit1
  have hsplit2 := inject_events_split b1 p2 e2
  have hcomb : newEvents b (b1.inject_node_event p2 e2) =
      newEvents b b1 ++ newEvents b1 (b1.inject_node_event p2 e2) :=
    drop_append_trans b.events b1.events (b1.inject_node_event p2 e2).events
      (newEvents b b1) (newEvents b1 (b1.inject_node_event p2 e2))
      hsplit1 hsplit2
  rw [hcomb]
  constructor
  · rw [deliverCount_append]
    by_cases hr : m ∈ b1.received
    · have h2z := (spec2.2.2.1 hr).1
      have h1le := spec1.1
      omega
    · have h1z := (spec1.2.2.2 hr).1
      have h2le := spec2.1
      omega
  · intro q
    rw [relayEnvCount_append]
    by_cases hr : m ∈ b1.received
    · have h2z := (spec2.2.2.1 hr).2.1 q
      have h1le := spec1.2.1 q
      omega
    · have h1z := (spec1.2.2.2 hr).2 q
      have h2le := spec2.2.1 q
      omega

/-- C4: no action appended by an inbound call is a send event addressed to
the peer the envelope came from. -/
theorem C4_no_self_relay (b : FloodsubBehaviour) (p : PeerId) (e : FloodsubRpc) :
    (newEvents b (b.inject_node_event p e)).countP (sendsTo p) = 0 := by
  have hev : (b.inject_node_event p e).events =
      (e.messages.foldl (processMessage p) (b, [])).1.events ++
        ((e.messages.foldl (processMessage p) (b, [])).2.map fun pr =>
          NetworkBehaviorAction.SendEvent pr.1 pr.2) := rfl
  have hfold : ((e.messages.foldl (processMessage p) (b, [])).1.events).countP
      (sendsTo p) = (b.events).countP (sendsTo p) :=
    foldMsgs_sendCount p (sendsTo p) (fun _ => rfl) e.messages (b, [])
  have hz : (((e.messages.foldl (processMessage p) (b, [])).2).map fun pr =>
      NetworkBehaviorAction.SendEvent pr.1 pr.2).countP (sendsTo p) = 0 := by
    apply sendCount_sends_zero
    apply foldMsgs_rpcs_ne_src p e.messages (b, [])
    simp
  have h1 : ((b.inject_node_event p e).events).countP (sendsTo p) =
      (b.events).countP (sendsTo p) := by
    rw [hev, List.countP_append, hfold, hz]
    omega
  rw [inject_events_split b p e, List.countP_append] at h1
  omega

/-- C1 (amended): `inject_node_event` never touches the connected-peer
registry: the subscriptions carried by an inbound envelope are ignored. -/
theorem C1_amended_registry_unchanged (b : FloodsubBehaviour) (p : PeerId)
    (e : FloodsubRpc) :
    (b.inject_node_event p e).connected_peers = b.connected_peers :=
  foldMsgs_connected p e.messages (b, [])

/-- C1 counterexample: an inbound envelope from peer 1 carrying a Subscribe
record for topic 5 leaves peer 1's registry entry empty; the claim would
require the entry to become `[5]`. -/
theorem C1_counterexample :
    hashmapLookup (bC1.inject_node_event 1
      { messages := []
        subscriptions := [{ topic := 5
                            action := FloodsubSubscriptionAction.Subscribe }] }).connected_peers
      1 = some [] ∧
    hashmapLookup (bC1.inject_node_event 1
      { messages := []
        subscriptions := [{ topic := 5
                            action := FloodsubSubscriptionAction.Subscribe }] }).connected_peers
      1 ≠ some [5] := by
  decide

/-- C8 (amended): an empty-topic message is never delivered or relayed on
either path; on the inbound path it is still marked seen, but on the publish
path the subscription gate fails first, so the message is discarded without
being marked seen (events and received both unchanged). -/
theorem C8_amended_empty_topics :
    (∀ (b : FloodsubBehaviour) (d : List Nat),
      (b.publish_many [] d).events = b.events ∧
      (b.publish_many [] d).received = b.received) ∧
    (∀ (b : FloodsubBehaviour) (p : PeerId) (e : FloodsubRpc)
      (m : FloodsubMessage),
      m ∈ e.messages → m.topics = [] →
      m ∈ (b.inject_node_event p e).received ∧
      deliverCount m (newEvents b (b.inject_node_event p e)) = 0 ∧
      ∀ q, relayEnvCount m q (newEvents b (b.inject_node_event p e)) = 0) := by
  constructor
  · intro b d
    have hg : (b.subscribed_topics.any fun t =>
        ([] : List TopicHash).any fun u => t.hash == u) = false := by
      simp
    rw [publish_many_gated b [] d hg]
    exact ⟨rfl, rfl⟩
  · intro b p e m hmem ht
    refine ⟨foldMsgs_mem_received p m e.messages (b, []) hmem, ?_, ?_⟩
    · have heq := inject_deliver_eq b p e m
      have hfold : deliverCount m
          ((e.messages.foldl (processMessage p) (b, [])).1.events) =
          deliverCount m b.events :=
        foldMsgs_deliver_topics_nil p m ht e.messages (b, [])
      omega
    · intro q
      rw [inject_relay_eq b p e m q]
      apply relayEnvCount_sends_zero
      apply foldMsgs_rpcs_nomsg_topics_nil p m ht e.messages (b, [])
      simp

/-- Witness for the amended C8 at a concrete state: a gated empty-topic
publish leaves the outbox untouched, and a concrete inbound empty-topic
message is marked seen yet delivered zero times. -/
theorem C8_amended_empty_topics_witness :
    (bC8.publish_many [] [7]).events = bC8.events ∧
    mW8 ∈ (bC8.inject_node_event 1
      { messages := [mW8], subscriptions := [] }).received ∧
    deliverCount mW8 (newEvents bC8 (bC8.inject_node_event 1
      { messages := [mW8], subscriptions := [] })) = 0 :=
  ⟨(C8_amended_empty_topics.1 bC8 [7]).1,
   (C8_amended_empty_topics.2 bC8 1
      { messages := [mW8], subscriptions := [] } mW8 (by decide) (by decide)).1,
   (C8_amended_empty_topics.2 bC8 1
      { messages := [mW8], subscriptions := [] } mW8 (by decide) (by decide)).2.1⟩

/-- C8 counterexample: on the publish path an empty-topic message is NOT
inserted into the deduplication filter — the gate returns before the
`received.add` call — refuting the claim that it is still marked seen. -/
theorem C8_counterexample :
    mkMessage bC8 [] [7] ∉ (bC8.publish_many [] [7]).received ∧
    (bC8.publish_many [] [7]).received = [] := by
  decide
